import Mathlib

/-!
Verification of the CIF (Crystallographic Information File) parser of this
repository against its design specification.  The repository ships the parser
as a compiled extension consumed by `python_example.py`; the parser core
(scanner, value classifier, tree builder, document model) is therefore
modelled here from the specification, faithfully to its words, and the claims
are settled against this model.  Numeric magnitudes are decimal literals in
the source format, so they are represented exactly as rationals.
-/

namespace Cif

/-! ### Error model (spec section 7) -/

/-- Modelled from the spec: the two fatal error kinds of section 7
(`LexicalError`, `StructuralError`); ValueError is non-fatal and never
surfaces as an error. -/
inductive ErrKind where
  | lexical
  | structural
deriving DecidableEq, Repr

/-- Modelled from the spec: a parse failure carries the offending line and
column and a descriptive message (section 7, Propagation). -/
structure PErr where
  kind : ErrKind
  line : Nat
  col : Nat
  msg : String
deriving DecidableEq, Repr

/-! ### Value model (spec section 3) -/

/-- Modelled from the spec: the Value tagged union over four variants:
`Text`, `Numeric` (magnitude with optional non-negative uncertainty),
`Unknown` (`?`) and `Inapplicable` (`.`).  The magnitude of a decimal
literal is represented exactly as a rational. -/
inductive Value where
  | text (s : String)
  | numeric (v : ℚ) (u : Option Nat)
  | unknown
  | inapplicable
deriving DecidableEq, Repr

/-- Discriminant query `is_text` of the public surface (spec section 6). -/
def Value.isText : Value → Bool
  | .text _ => true
  | _ => false

/-- Discriminant query `is_numeric` of the public surface (spec section 6). -/
def Value.isNumeric : Value → Bool
  | .numeric _ _ => true
  | _ => false

/-! ### Document model (spec section 3) -/

/-- Modelled from the spec: a Loop is an ordered sequence of header tags plus
an ordered sequence of rows of Values. -/
structure Loop where
  tags : List String
  rows : List (List Value)
deriving DecidableEq, Repr

/-- Modelled from the spec: a SaveFrame is named and owns its own ordered
Items and Loops (nested SaveFrames are disallowed). -/
structure SaveFrame where
  name : String
  items : List (String × Value)
  loops : List Loop
deriving DecidableEq, Repr

/-- Modelled from the spec: a Block is named and owns ordered Items, Loops
and SaveFrames, each kept in source order. -/
structure Block where
  name : String
  items : List (String × Value)
  loops : List Loop
  frames : List SaveFrame
deriving DecidableEq, Repr

/-- Modelled from the spec: a Document is the ordered sequence of Blocks. -/
structure Document where
  blocks : List Block
deriving DecidableEq, Repr

/-! ### Scanner (spec section 4.1) -/

/-- Modelled from the spec: the classified lexical tokens: bare value,
quoted value (stored with its delimiters), multi-line text value, and the
reserved keywords `loop_`, `stop_`, `global_`, `data_<name>`, `save_<name>`.
Each token carries the line and column where it starts. -/
inductive Tok where
  | bare (text : String) (line col : Nat)
  | quoted (lit : String) (line col : Nat)
  | multiline (content : String) (line col : Nat)
  | kwLoop (line col : Nat)
  | kwStop (line col : Nat)
  | kwGlobal (line col : Nat)
  | kwData (name : String) (line col : Nat)
  | kwSave (name : String) (line col : Nat)
deriving DecidableEq, Repr

/-- ASCII lower-casing, used for the case-insensitive comparisons the spec
prescribes for keywords and name lookups. -/
def lowerChar (c : Char) : Char :=
  if 'A' ≤ c ∧ c ≤ 'Z' then Char.ofNat (c.toNat + 32) else c

/-- Case-insensitive string comparison (spec sections 4.1 and 4.4). -/
def ciEq (a b : String) : Bool :=
  a.data.map lowerChar == b.data.map lowerChar

/-- Inline whitespace: space, tab, carriage return (newline handled apart
for line counting). -/
def isWS (c : Char) : Bool :=
  c == ' ' || c == '\t' || c == '\r'

/-- A character that continues a bare token: anything but whitespace. -/
def isBareChar (c : Char) : Bool :=
  !(isWS c) && c != '\n'

/-- Prefix test on character lists (case already folded by the caller). -/
def listIsPrefix : List Char → List Char → Bool
  | [], _ => true
  | _ :: _, [] => false
  | p :: ps, c :: cs => p == c && listIsPrefix ps cs

/-- Modelled from the spec: keyword classification of a bare token
(section 4.1): case-insensitively `loop_`, `stop_`, `global_`, or a prefix
`data_` / `save_` with the case-preserved remainder as name; anything else
is a bare scalar value. -/
def keywordOf (cs : List Char) (line col : Nat) : Tok :=
  let low := cs.map lowerChar
  if low == "loop_".data then .kwLoop line col
  else if low == "stop_".data then .kwStop line col
  else if low == "global_".data then .kwGlobal line col
  else if listIsPrefix "data_".data low then .kwData (String.mk (cs.drop 5)) line col
  else if listIsPrefix "save_".data low then .kwSave (String.mk (cs.drop 5)) line col
  else .bare (String.mk cs) line col

/-- Modelled from the spec: scan a quoted value after its opening delimiter
`q`: the closing quote must be immediately followed by whitespace or
end-of-line; an interior quote followed by anything else is literal text.
Returns the content characters and the remaining input, or `none` when the
line (or the input) ends before a closing delimiter. -/
def readQuoted (q : Char) (acc : List Char) : List Char → Option (List Char × List Char)
  | [] => none
  | c :: rest =>
    if c == '\n' then none
    else if c == q then
      match rest with
      | [] => some (acc.reverse, [])
      | c2 :: _ => if isWS c2 || c2 == '\n' then some (acc.reverse, rest)
                   else readQuoted q (c :: acc) rest
  else readQuoted q (c :: acc) rest

/-- Modelled from the spec: scan a multi-line text value after the opening
`;`: content runs up to (not including) the next line whose first character
is `;`.  Returns the content, the input after the closing `;`, and the
number of newlines consumed, or `none` when the input ends first. -/
def readMultiline (acc : List Char) (nl : Nat) : List Char → Option (List Char × List Char × Nat)
  | [] => none
  | '\n' :: rest =>
    match rest with
    | ';' :: rest2 => some (acc.reverse, rest2, nl + 1)
    | _ => readMultiline ('\n' :: acc) (nl + 1) rest
  | c :: rest => readMultiline (c :: acc) nl rest

/-- Modelled from the spec: the Scanner main loop (section 4.1): skip
whitespace and `#` comments, recognise multi-line fields (a `;` in column 1),
quoted values, and bare tokens (with keyword classification); a single
forward pass over the characters.  `fuel` dominates the input length (the
caller passes `length + 1`, and every step consumes at least one character),
so the fuel-exhaustion branch is unreachable. -/
def tokenize (fuel : Nat) (cs : List Char) (line col : Nat) (acc : List Tok) :
    Except PErr (List Tok) :=
  match fuel with
  | 0 => .error ⟨.lexical, line, col, "scanner step bound exceeded"⟩
  | fuel + 1 =>
    match cs with
    | [] => .ok acc.reverse
    | c :: rest =>
      if c == '\n' then tokenize fuel rest (line + 1) 1 acc
      else if isWS c then tokenize fuel rest line (col + 1) acc
      else if c == '#' then
        tokenize fuel (rest.dropWhile (· != '\n')) line
          (col + 1 + (rest.takeWhile (· != '\n')).length) acc
      else if c == ';' && col == 1 then
        match readMultiline [] 0 rest with
        | none => .error ⟨.lexical, line, col, "unterminated multi-line text value"⟩
        | some (content, rest2, nls) =>
          tokenize fuel rest2 (line + nls) 2
            (.multiline (String.mk content) line col :: acc)
      else if c == '\'' || c == '"' then
        match readQuoted c [] rest with
        | none => .error ⟨.lexical, line, col, "unterminated quoted value"⟩
        | some (content, rest2) =>
          tokenize fuel rest2 line (col + content.length + 2)
            (.quoted (String.mk (c :: (content ++ [c]))) line col :: acc)
      else
        let tokChars := (c :: rest).takeWhile isBareChar
        tokenize fuel ((c :: rest).dropWhile isBareChar) line (col + tokChars.length)
          (keywordOf tokChars line col :: acc)

/-! ### Value Classifier (spec section 4.2) -/

/-- Decimal digit test. -/
def isDigit (c : Char) : Bool :=
  '0' ≤ c && c ≤ '9'

/-- Digit run as a natural number. -/
def digitsToNat (ds : List Char) : Nat :=
  ds.foldl (fun n c => n * 10 + (c.toNat - '0'.toNat)) 0

/-- Modelled from the spec: the strict numeric grammar of section 4.2: an
optional sign, digits, optional decimal point and digits (at least one digit
overall), an optional exponent, an optional parenthesized non-negative
integer uncertainty suffix, and nothing else (no trailing garbage).  Returns
the exact magnitude and the optional uncertainty, or `none` when the token
fails the grammar. -/
def parseNumeric (s : String) : Option (ℚ × Option Nat) :=
  let cs := s.data
  let (neg, cs1) : Bool × List Char :=
    match cs with
    | '-' :: r => (true, r)
    | '+' :: r => (false, r)
    | _ => (false, cs)
  let intDs := cs1.takeWhile isDigit
  let cs2 := cs1.dropWhile isDigit
  let (fracDs, cs3) : List Char × List Char :=
    match cs2 with
    | '.' :: r => (r.takeWhile isDigit, r.dropWhile isDigit)
    | _ => ([], cs2)
  if intDs.isEmpty && fracDs.isEmpty then none
  else
    let expPart : Option (Int × List Char) :=
      match cs3 with
      | 'e' :: r | 'E' :: r =>
        let (eneg, r1) : Bool × List Char :=
          match r with
          | '-' :: r2 => (true, r2)
          | '+' :: r2 => (false, r2)
          | _ => (false, r)
        let eds := r1.takeWhile isDigit
        if eds.isEmpty then none
        else some (if eneg then -(digitsToNat eds : Int) else (digitsToNat eds : Int),
                   r1.dropWhile isDigit)
      | _ => some (0, cs3)
    match expPart with
    | none => none
    | some (ex, cs4) =>
      let uPart : Option (Option Nat × List Char) :=
        match cs4 with
        | '(' :: r =>
          let uds := r.takeWhile isDigit
          if uds.isEmpty then none
          else match r.dropWhile isDigit with
            | ')' :: r2 => some (some (digitsToNat uds), r2)
            | _ => none
        | _ => some (none, cs4)
      match uPart with
      | none => none
      | some (u, rest) =>
        if rest.isEmpty then
          let base : Nat := digitsToNat intDs * 10 ^ fracDs.length + digitsToNat fracDs
          let inum : Int := if neg then -(base : Int) else (base : Int)
          let mag : ℚ := match ex with
            | Int.ofNat e => mkRat (inum * (10 : Int) ^ e) (10 ^ fracDs.length)
            | Int.negSucc e => mkRat inum (10 ^ fracDs.length * 10 ^ (e + 1))
          some (mag, u)
        else none

/-- Strip matching single- or double-quote delimiters, when present on both
ends, from a scalar literal (spec section 4.2, Text classification). -/
def stripQuotes (s : String) : String :=
  match s.data with
  | [] => s
  | c :: rest =>
    if (c == '\'' || c == '"') && rest.getLast? == some c then
      String.mk rest.dropLast
    else s

/-- Modelled from the spec: the Value Classifier (section 4.2), a pure total
function on a scalar token's literal text: exactly `?` is Unknown, exactly
`.` is Inapplicable, a token matching the strict numeric grammar is Numeric,
and anything else is Text with quote delimiters, if any, stripped. -/
def classify (s : String) : Value :=
  if s = "?" then .unknown
  else if s = "." then .inapplicable
  else
    match parseNumeric s with
    | some (v, u) => .numeric v u
    | none => .text (stripQuotes s)

/-! ### Tree Builder (spec section 4.3) -/

/-- Does a bare token denote a tag (a leading underscore)? -/
def isTag (s : String) : Bool :=
  match s.data with
  | '_' :: _ => true
  | _ => false

/-- Modelled from the spec: the Tree Builder's mode within the current block
or save frame: ordinary item collection, a tag awaiting its value, a loop
header under collection, or loop rows under collection (section 4.3).  Modes
carry the position that an error at that point reports. -/
inductive Mode where
  | normal
  | awaitValue (tag : String) (line col : Nat)
  | loopHeader (tags : List String) (line col : Nat)
  | loopRows (tags : List String) (vals : List Value) (line col : Nat)
deriving DecidableEq, Repr

/-- Modelled from the spec: the Tree Builder's transient state: finished
blocks, the block under construction, the save frame under construction
(at most one, nesting is fatal), and the current mode. -/
structure PState where
  blocks : List Block
  cur : Option Block
  frame : Option SaveFrame
  mode : Mode
deriving DecidableEq, Repr

/-- The initial builder state: top level, nothing open. -/
def initState : PState :=
  ⟨[], none, none, .normal⟩

/-- Worker for `chunkRows`, structurally recursive on a step bound: each
step emits one row of `n` values.  The bound dominates the row count, so it
is never exhausted at a call from `chunkRows`. -/
def chunkAux (n : Nat) : Nat → List Value → List (List Value)
  | 0, _ => []
  | _, [] => []
  | fuel + 1, v :: vs => (v :: vs.take (n - 1)) :: chunkAux n fuel (vs.drop (n - 1))

/-- Cut a flat value stream into rows of `n` values each (the loop-row
boundary has already checked divisibility). -/
def chunkRows (n : Nat) (vals : List Value) : List (List Value) :=
  chunkAux n vals.length vals

/-- Modelled from the spec: close a loop at its boundary (section 4.3): an
empty header is fatal, a value count not evenly divisible by the header
length is the fatal "loop row/column mismatch", otherwise the values are cut
into rows of header length. -/
def closeLoop (tags : List String) (vals : List Value) (line col : Nat) :
    Except PErr Loop :=
  if tags.isEmpty then .error ⟨.structural, line, col, "empty loop header"⟩
  else if vals.length % tags.length != 0 then
    .error ⟨.structural, line, col, "loop row/column mismatch"⟩
  else .ok ⟨tags, chunkRows tags.length vals⟩

/-- Append a finished item to the open save frame when one is open, else to
the open block (spec section 4.3: save-frame contents nest identically). -/
def addItem (st : PState) (tag : String) (v : Value) : PState :=
  match st.frame with
  | some f => { st with frame := some { f with items := f.items ++ [(tag, v)] } }
  | none =>
    match st.cur with
    | some b => { st with cur := some { b with items := b.items ++ [(tag, v)] } }
    | none => st

/-- Append a finished loop to the open save frame when one is open, else to
the open block. -/
def addLoop (st : PState) (lp : Loop) : PState :=
  match st.frame with
  | some f => { st with frame := some { f with loops := f.loops ++ [lp] } }
  | none =>
    match st.cur with
    | some b => { st with cur := some { b with loops := b.loops ++ [lp] } }
    | none => st

/-- Close the current mode at a construct boundary (keyword or end of
input): a pending tag without its value is fatal; an open loop is closed
with its boundary checks. -/
def flushMode (st : PState) : Except PErr PState :=
  match st.mode with
  | .normal => .ok st
  | .awaitValue _ l c => .error ⟨.structural, l, c, "tag without value"⟩
  | .loopHeader tags l c =>
    match closeLoop tags [] l c with
    | .error e => .error e
    | .ok lp => .ok { addLoop st lp with mode := .normal }
  | .loopRows tags vals l c =>
    match closeLoop tags vals l c with
    | .error e => .error e
    | .ok lp => .ok { addLoop st lp with mode := .normal }

/-- Close the open save frame into the current block (the `save_` closer). -/
def closeFrame (st : PState) (l c : Nat) : Except PErr PState :=
  match st.frame with
  | none => .error ⟨.structural, l, c, "save_ closer with no matching opener"⟩
  | some f =>
    match st.cur with
    | some b => .ok { st with cur := some { b with frames := b.frames ++ [f] },
                              frame := none }
    | none => .ok { st with frame := none }

/-- Move the block under construction, when one is open, to the finished
list (order of appearance preserved). -/
def closeCur (st : PState) : PState :=
  match st.cur with
  | some b => { st with blocks := st.blocks ++ [b], cur := none }
  | none => st

/-- Modelled from the spec: a `data_<name>` header (section 4.3): closes all
open loop/save contexts and the previous block, rejects an empty name and a
duplicate block name (case-insensitive, as block lookup is), and opens the
new block. -/
def openBlock (st : PState) (name : String) (l c : Nat) : Except PErr PState :=
  match flushMode st with
  | .error e => .error e
  | .ok st1 =>
    let st2 : PState :=
      match st1.frame, st1.cur with
      | some f, some b => { st1 with cur := some { b with frames := b.frames ++ [f] },
                                     frame := none }
      | some _, none => { st1 with frame := none }
      | none, _ => st1
    let st3 := closeCur st2
    if name = "" then .error ⟨.structural, l, c, "data_ with empty name"⟩
    else if st3.blocks.any (fun b => ciEq b.name name) then
      .error ⟨.structural, l, c, "duplicate block name"⟩
    else .ok { st3 with cur := some ⟨name, [], [], []⟩ }

/-- Accept a scalar value token in the current mode: fill a pending item,
end an empty loop header fatally, start or extend the loop's value stream;
a value with no preceding tag outside a loop is fatal. -/
def valueStep (st : PState) (v : Value) (l c : Nat) : Except PErr PState :=
  match st.mode with
  | .normal => .error ⟨.structural, l, c, "value without preceding tag"⟩
  | .awaitValue tag _ _ => .ok { addItem st tag v with mode := .normal }
  | .loopHeader tags l0 c0 =>
    if tags.isEmpty then .error ⟨.structural, l0, c0, "empty loop header"⟩
    else .ok { st with mode := .loopRows tags [v] l0 c0 }
  | .loopRows tags vals l0 c0 =>
    .ok { st with mode := .loopRows tags (vals ++ [v]) l0 c0 }

/-- Modelled from the spec: one transition of the Tree Builder state machine
(section 4.3) on one token.  `stop_` and `global_` are recognised but fatal;
a tag inside loop rows is a loop boundary; classification of a scalar is
delegated to the Value Classifier at the moment the value is accepted, a
multi-line value is always Text. -/
def step (st : PState) (t : Tok) : Except PErr PState :=
  match t with
  | .kwData name l c => openBlock st name l c
  | .kwStop l c => .error ⟨.lexical, l, c, "unsupported CIF construct stop_"⟩
  | .kwGlobal l c => .error ⟨.lexical, l, c, "unsupported CIF construct global_"⟩
  | .kwLoop l c =>
    match flushMode st with
    | .error e => .error e
    | .ok st1 =>
      if st1.cur.isNone then .error ⟨.structural, l, c, "loop_ outside data block"⟩
      else .ok { st1 with mode := .loopHeader [] l c }
  | .kwSave name l c =>
    if name = "" then
      match flushMode st with
      | .error e => .error e
      | .ok st1 => closeFrame st1 l c
    else
      match flushMode st with
      | .error e => .error e
      | .ok st1 =>
        if st1.frame.isSome then .error ⟨.structural, l, c, "nested save frame"⟩
        else if st1.cur.isNone then
          .error ⟨.structural, l, c, "save frame outside data block"⟩
        else .ok { st1 with frame := some ⟨name, [], []⟩ }
  | .bare s l c =>
    if isTag s then
      match st.mode with
      | .normal =>
        if st.cur.isNone then .error ⟨.structural, l, c, "tag outside data block"⟩
        else .ok { st with mode := .awaitValue s l c }
      | .awaitValue _ l0 c0 => .error ⟨.structural, l0, c0, "tag without value"⟩
      | .loopHeader tags l0 c0 => .ok { st with mode := .loopHeader (tags ++ [s]) l0 c0 }
      | .loopRows tags vals l0 c0 =>
        match closeLoop tags vals l0 c0 with
        | .error e => .error e
        | .ok lp => .ok { addLoop st lp with mode := .awaitValue s l c }
    else valueStep st (classify s) l c
  | .quoted lit l c => valueStep st (classify lit) l c
  | .multiline content l c => valueStep st (.text content) l c

/-- Run the builder over the token stream, failing fast at the first
error. -/
def runSteps (st : PState) : List Tok → Except PErr PState
  | [] => .ok st
  | t :: ts =>
    match step st t with
    | .error e => .error e
    | .ok st' => runSteps st' ts

/-- Modelled from the spec: end of input (section 4.3): the mode is flushed
(closing any open loop), an unterminated save frame is fatal, and the last
block is closed into the Document. -/
def finalize (st : PState) : Except PErr Document :=
  match flushMode st with
  | .error e => .error e
  | .ok st1 =>
    if st1.frame.isSome then .error ⟨.structural, 0, 0, "unterminated save frame"⟩
    else .ok ⟨(closeCur st1).blocks⟩

/-- Build a Document from a token stream. -/
def build (toks : List Tok) : Except PErr Document :=
  match runSteps initState toks with
  | .error e => .error e
  | .ok st => finalize st

/-- Modelled from the spec: `parse(text) -> Document`, the single public
entry point (section 6): Scanner, then Tree Builder; any grammar violation
fails the whole call with one error. -/
def parse (text : String) : Except PErr Document :=
  match tokenize (text.data.length + 1) text.data 1 1 [] with
  | .error e => .error e
  | .ok toks => build toks

/-! ### Document model accessors (spec sections 4.4 and 6) -/

/-- Number of blocks (`len(doc)`). -/
def Document.size (d : Document) : Nat :=
  d.blocks.length

/-- Ordered block-name list (`doc.block_names`). -/
def Document.blockNames (d : Document) : List String :=
  d.blocks.map (·.name)

/-- Block lookup by name, case-insensitive (`doc[name]`); absent name yields
an explicit not-found result. -/
def Document.getBlock (d : Document) (name : String) : Option Block :=
  d.blocks.find? (fun b => ciEq b.name name)

/-- Block lookup by position (`doc[i]`); out-of-range yields an explicit
not-found result. -/
def Document.getBlockIdx (d : Document) (i : Nat) : Option Block :=
  d.blocks.get? i

/-- The first block, when any (`doc.first_block()`). -/
def Document.firstBlock (d : Document) : Option Block :=
  d.blocks.head?

/-- Ordered item-tag list of a block (`block.item_keys`), in source order. -/
def Block.itemKeys (b : Block) : List String :=
  b.items.map (·.1)

/-- Item lookup by tag, case-insensitive, last occurrence of a duplicate tag
wins (`block.get_item`); an absent tag yields an explicit not-found
result. -/
def Block.getItem (b : Block) (tag : String) : Option Value :=
  ((b.items.filter (fun p => ciEq p.1 tag)).map (·.2)).getLast?

/-- Loop count of a block (`block.num_loops`). -/
def Block.numLoops (b : Block) : Nat :=
  b.loops.length

/-- Loop lookup by position (`block.get_loop`). -/
def Block.getLoop (b : Block) (i : Nat) : Option Loop :=
  b.loops.get? i

/-- Save-frame count of a block (`block.num_frames`). -/
def Block.numFrames (b : Block) : Nat :=
  b.frames.length

/-- Save-frame lookup by position (`block.get_frame`). -/
def Block.getFrame (b : Block) (i : Nat) : Option SaveFrame :=
  b.frames.get? i

/-- Ordered item-tag list of a save frame (`frame.item_keys`). -/
def SaveFrame.itemKeys (f : SaveFrame) : List String :=
  f.items.map (·.1)

/-- Item lookup by tag in a save frame, case-insensitive, last duplicate
wins (`frame.get_item`). -/
def SaveFrame.getItem (f : SaveFrame) (tag : String) : Option Value :=
  ((f.items.filter (fun p => ciEq p.1 tag)).map (·.2)).getLast?

/-- Row count of a loop (`len(loop)`). -/
def Loop.numRows (lp : Loop) : Nat :=
  lp.rows.length

/-- One row as an ordered list of Values (`loop.get_row`); out-of-range
yields an explicit not-found result. -/
def Loop.getRow (lp : Loop) (i : Nat) : Option (List Value) :=
  lp.rows.get? i

/-- One row as a tag-to-Value mapping (`loop.get_row_dict`), an association
list in header order; out-of-range yields an explicit not-found result. -/
def Loop.getRowDict (lp : Loop) (i : Nat) : Option (List (String × Value)) :=
  (lp.rows.get? i).map (fun r => lp.tags.zip r)

/-! ### The example document of `python_example.py` -/

/-- The exact content of `cif_content` in `python_example.py` (lines 23-48):
a leading newline, four spaces of indentation on every line, and a trailing
indented line. -/
def sampleText : String :=
  "\n    data_example\n    _cell_length_a 10.000\n    _cell_length_b 20.000\n    _cell_length_c 30.000\n    _cell_angle_alpha 90.0\n    _cell_angle_beta 90.0\n    _cell_angle_gamma 90.0\n    _author_name 'John Doe'\n    _title 'Example Crystal Structure'\n    \n    loop_\n    _atom_site_label\n    _atom_site_type_symbol\n    _atom_site_fract_x\n    _atom_site_fract_y\n    _atom_site_fract_z\n    C1 C 0.1234 0.5678 0.9012\n    N1 N 0.2345 0.6789 0.0123\n    O1 O 0.3456 0.7890 0.1234\n    \n    save_frame1\n    _frame_item1 'Frame data 1'\n    _frame_item2 42.0\n    save_\n    "

/-- The loop the example content describes: 5 atom-site tags, 3 rows. -/
def sampleLoop : Loop :=
  ⟨["_atom_site_label", "_atom_site_type_symbol", "_atom_site_fract_x",
    "_atom_site_fract_y", "_atom_site_fract_z"],
   [[.text "C1", .text "C", .numeric (mkRat 1234 10000) none,
     .numeric (mkRat 5678 10000) none, .numeric (mkRat 9012 10000) none],
    [.text "N1", .text "N", .numeric (mkRat 2345 10000) none,
     .numeric (mkRat 6789 10000) none, .numeric (mkRat 123 10000) none],
    [.text "O1", .text "O", .numeric (mkRat 3456 10000) none,
     .numeric (mkRat 7890 10000) none, .numeric (mkRat 1234 10000) none]]⟩

/-- The save frame `frame1` of the example content. -/
def sampleFrame : SaveFrame :=
  ⟨"frame1",
   [("_frame_item1", .text "Frame data 1"), ("_frame_item2", .numeric 42 none)],
   []⟩

/-- The single block `example` of the example content. -/
def sampleBlock : Block :=
  ⟨"example",
   [("_cell_length_a", .numeric 10 none), ("_cell_length_b", .numeric 20 none),
    ("_cell_length_c", .numeric 30 none), ("_cell_angle_alpha", .numeric 90 none),
    ("_cell_angle_beta", .numeric 90 none), ("_cell_angle_gamma", .numeric 90 none),
    ("_author_name", .text "John Doe"), ("_title", .text "Example Crystal Structure")],
   [sampleLoop], [sampleFrame]⟩

/-- The Document the example content parses to. -/
def sampleDoc : Document := ⟨[sampleBlock]⟩

/-- Projection of a fallible outcome onto its error, when it failed. -/
def errOf {α : Type} (r : Except PErr α) : Option PErr :=
  match r with
  | .error e => some e
  | .ok _ => none

/-! ### Structural well-formedness (the invariants of spec section 3) -/

/-- The Loop invariant of spec section 3: every row's value count equals the
header's tag count. -/
def LoopWF (lp : Loop) : Prop :=
  ∀ r ∈ lp.rows, r.length = lp.tags.length

/-- All loops of a save frame satisfy the Loop invariant. -/
def FrameWF (f : SaveFrame) : Prop :=
  ∀ lp ∈ f.loops, LoopWF lp

/-- All loops of a block, directly owned or inside its save frames, satisfy
the Loop invariant. -/
def BlockWF (b : Block) : Prop :=
  (∀ lp ∈ b.loops, LoopWF lp) ∧ (∀ f ∈ b.frames, FrameWF f)

/-- The builder-state invariant behind the Loop invariant: every loop
already placed in the finished blocks, the open block, or the open save
frame is well-formed. -/
def StateWF (st : PState) : Prop :=
  (∀ b ∈ st.blocks, BlockWF b) ∧
  (∀ b, st.cur = some b → BlockWF b) ∧
  (∀ f, st.frame = some f → FrameWF f)

/-- Lower-cased name key of a block, the identity under which the
case-insensitive block lookup and the duplicate check operate. -/
def nameKey (b : Block) : List Char :=
  b.name.data.map lowerChar

/-- The builder-state invariant behind by-name lookup: the lower-cased names
of the finished blocks are pairwise distinct, and the open block's name
collides with none of them. -/
def NamesOK (st : PState) : Prop :=
  (st.blocks.map nameKey).Nodup ∧
  (∀ b, st.cur = some b → ∀ b' ∈ st.blocks, nameKey b' ≠ nameKey b)

/-- Two builder states with the same finished blocks and the same open-block
name: the relation every builder transition except a `data_` header
preserves. -/
def SameSkeleton (st st' : PState) : Prop :=
  st'.blocks = st.blocks ∧ st'.cur.map Block.name = st.cur.map Block.name

end Cif

namespace Cif

/-! ## Claim theorems -/

set_option maxRecDepth 10000 in
/-- C1: parsing the example content of `python_example.py` succeeds and
yields a Document with exactly 1 Block named `example`; that Block has 8
Items including `_cell_length_a` mapped to Numeric(10.0) and `_title`
mapped to Text("Example Crystal Structure"); exactly 1 Loop with 5 tags and
3 rows whose row 0 holds C1/C/0.1234/0.5678/0.9012 with the label and type
classified Text and the three coordinates classified Numeric; and exactly 1
SaveFrame named `frame1` with 2 Items, `_frame_item2` mapped to
Numeric(42.0). -/
theorem claim_C1_end_to_end_example :
    (parse sampleText).toOption = some sampleDoc ∧
    sampleDoc.size = 1 ∧
    sampleDoc.blockNames = ["example"] ∧
    sampleBlock.itemKeys.length = 8 ∧
    sampleBlock.getItem "_cell_length_a" = some (.numeric 10 none) ∧
    sampleBlock.getItem "_title" = some (.text "Example Crystal Structure") ∧
    sampleBlock.numLoops = 1 ∧
    sampleBlock.getLoop 0 = some sampleLoop ∧
    sampleLoop.tags.length = 5 ∧
    sampleLoop.numRows = 3 ∧
    sampleLoop.getRow 0 =
      some [.text "C1", .text "C", .numeric (mkRat 1234 10000) none,
            .numeric (mkRat 5678 10000) none, .numeric (mkRat 9012 10000) none] ∧
    sampleBlock.numFrames = 1 ∧
    sampleBlock.getFrame 0 = some sampleFrame ∧
    sampleFrame.name = "frame1" ∧
    sampleFrame.itemKeys.length = 2 ∧
    sampleFrame.getItem "_frame_item2" = some (.numeric 42 none) := by
  decide

/-- C3: the value classifier maps exactly `?` to Unknown and exactly `.` to
Inapplicable (near-misses stay Text), `10.000` to Numeric(10.000) with no
uncertainty, `10.000(5)` to Numeric(10.000) with uncertainty 5, and the
quoted token `'John Doe'` to Text("John Doe") with the quote delimiters
stripped. -/
theorem claim_C3_classifier_representatives :
    classify "?" = .unknown ∧
    classify "." = .inapplicable ∧
    classify "??" = .text "??" ∧
    classify ".." = .text ".." ∧
    classify "10.000" = .numeric 10 none ∧
    classify "10.000(5)" = .numeric 10 (some 5) ∧
    classify "'John Doe'" = .text "John Doe" := by
  decide

/-- C4: value classification is total — every scalar literal yields one of
the four Value variants; a token that is not a placeholder and fails the
strict numeric grammar degrades to Text (with quote delimiters stripped)
instead of failing; and accepting a classified scalar into a pending item or
into loop rows never produces a parse error, so only structural violations
abort parsing, never classification. -/
theorem claim_C4_classification_never_aborts :
    (∀ s : String,
        classify s = .unknown ∨ classify s = .inapplicable ∨
        (∃ v u, classify s = .numeric v u) ∨ (∃ t, classify s = .text t)) ∧
    (∀ s : String, s ≠ "?" → s ≠ "." → parseNumeric s = none →
        classify s = .text (stripQuotes s)) ∧
    (∀ (st : PState) (tag : String) (l0 c0 : Nat) (v : Value) (l c : Nat),
        st.mode = .awaitValue tag l0 c0 → ∃ st', valueStep st v l c = .ok st') ∧
    (∀ (st : PState) (tags : List String) (vals : List Value) (l0 c0 : Nat)
        (v : Value) (l c : Nat),
        st.mode = .loopRows tags vals l0 c0 → ∃ st', valueStep st v l c = .ok st') := by
  refine ⟨fun s => ?_, fun s h1 h2 h3 => ?_, fun st tag l0 c0 v l c hm => ?_,
          fun st tags vals l0 c0 v l c hm => ?_⟩
  · unfold classify
    split
    · exact .inl rfl
    · split
      · exact .inr (.inl rfl)
      · split
        · exact .inr (.inr (.inl ⟨_, _, rfl⟩))
        · exact .inr (.inr (.inr ⟨_, rfl⟩))
  · simp [classify, h1, h2, h3]
  · obtain ⟨bs, cur, fr, mode⟩ := st
    cases hm
    exact ⟨_, rfl⟩
  · obtain ⟨bs, cur, fr, mode⟩ := st
    cases hm
    exact ⟨_, rfl⟩

/-- Witness for C4 at the malformed numeric-looking token `12.3.4`: it fails
the strict numeric grammar and degrades to Text. -/
theorem claim_C4_witness : classify "12.3.4" = .text "12.3.4" := by
  have h := claim_C4_classification_never_aborts.2.1 "12.3.4"
    (by decide) (by decide) (by decide)
  simpa using h

/-- C5: the parse call is atomic: for every input text it either returns a
fully built Document or fails with exactly one error (which by construction
carries an error kind, the offending line and column, and a message); there
is no partial or best-effort outcome. -/
theorem claim_C5_parse_atomicity :
    ∀ text : String,
      ((parse text).toOption.isSome = true ∧ errOf (parse text) = none) ∨
      ((parse text).toOption = none ∧ (errOf (parse text)).isSome = true) := by
  intro text
  cases h : parse text with
  | ok d => exact .inl (by simp [Except.toOption, errOf, h])
  | error e => exact .inr (by simp [Except.toOption, errOf, h])

/-- C8 counterexample: classification is not idempotent on all Text
results: the quoted token `'10.0'` classifies as Text("10.0"), but the
extracted literal `10.0` reclassifies as Numeric. -/
theorem claim_C8_counterexample :
    ¬ (∀ s t : String, classify s = .text t → (classify t).isText = true) :=
  fun h => absurd (h "'10.0'" "10.0" (by decide)) (by decide)

/-- C8 (amended): classification is idempotent on its unstripped Text fixed
points: whenever classifying `s` yields Text(t) with `t = s` (no quote
delimiters were stripped), classifying `t` again yields the same Text value,
never a Numeric one.  (For a quoted token whose content is numeric-shaped,
such as `'10.0'`, the extracted literal reclassifies as Numeric, so the
restriction to unstripped results is necessary.) -/
theorem claim_C8_text_fixed_points :
    ∀ s t : String, classify s = .text t → t = s →
      classify t = .text t ∧ (classify t).isNumeric = false := by
  intro s t h ht
  subst ht
  exact ⟨h, by rw [h]; rfl⟩

/-- Witness for the amended C8 at the bare token `abc`. -/
theorem claim_C8_witness :
    classify "abc" = .text "abc" ∧ (classify "abc").isNumeric = false :=
  claim_C8_text_fixed_points "abc" "abc" (by decide) rfl

/-- C6: every lookup operation with a nonexistent name or tag or an
out-of-range index returns the explicit not-found result `none`, never a
default Block or Value: block lookup by name (no case-insensitive match)
and by index, item lookup by tag in blocks and save frames, loop and frame
lookup by index, and loop row lookup (ordered or as a mapping) by index. -/
theorem claim_C6_lookup_not_found :
    (∀ (d : Document) (name : String),
        (∀ b ∈ d.blocks, ciEq b.name name = false) → d.getBlock name = none) ∧
    (∀ (d : Document) (i : Nat), d.blocks.length ≤ i → d.getBlockIdx i = none) ∧
    (∀ (b : Block) (tag : String),
        (∀ p ∈ b.items, ciEq p.1 tag = false) → b.getItem tag = none) ∧
    (∀ (b : Block) (i : Nat), b.loops.length ≤ i → b.getLoop i = none) ∧
    (∀ (b : Block) (i : Nat), b.frames.length ≤ i → b.getFrame i = none) ∧
    (∀ (f : SaveFrame) (tag : String),
        (∀ p ∈ f.items, ciEq p.1 tag = false) → f.getItem tag = none) ∧
    (∀ (lp : Loop) (i : Nat), lp.rows.length ≤ i → lp.getRow i = none) ∧
    (∀ (lp : Loop) (i : Nat), lp.rows.length ≤ i → lp.getRowDict i = none) := by
  refine ⟨fun d name h => ?_, fun d i h => ?_, fun b tag h => ?_, fun b i h => ?_,
          fun b i h => ?_, fun f tag h => ?_, fun lp i h => ?_, fun lp i h => ?_⟩
  · exact List.find?_eq_none.mpr (by simpa using h)
  · exact List.get?_eq_none.mpr h
  · have : b.items.filter (fun p => ciEq p.1 tag) = [] :=
      List.filter_eq_nil_iff.mpr (by simpa using h)
    simp [Block.getItem, this]
  · exact List.get?_eq_none.mpr h
  · exact List.get?_eq_none.mpr h
  · have : f.items.filter (fun p => ciEq p.1 tag) = [] :=
      List.filter_eq_nil_iff.mpr (by simpa using h)
    simp [SaveFrame.getItem, this]
  · exact List.get?_eq_none.mpr h
  · unfold Loop.getRowDict
    rw [List.get?_eq_none.mpr h]
    rfl

/-- Witness for C6 on the example document: block index 1, block name
`nosuch`, tag `_nosuch` and loop row 3 are all absent and yield `none`. -/
theorem claim_C6_witness :
    sampleDoc.getBlockIdx 1 = none ∧
    sampleDoc.getBlock "nosuch" = none ∧
    sampleBlock.getItem "_nosuch" = none ∧
    sampleLoop.getRow 3 = none :=
  ⟨claim_C6_lookup_not_found.2.1 sampleDoc 1 (by decide),
   claim_C6_lookup_not_found.1 sampleDoc "nosuch" (by decide),
   claim_C6_lookup_not_found.2.2.1 sampleBlock "_nosuch" (by decide),
   claim_C6_lookup_not_found.2.2.2.2.2.2.1 sampleLoop 3 (by decide)⟩

end Cif

namespace Cif

/-! ## Invariant lemmas for the Tree Builder -/

theorem chunkAux_wf (n : Nat) (hn : 0 < n) :
    ∀ (fuel : Nat) (vals : List Value), vals.length ≤ fuel → n ∣ vals.length →
      ∀ r ∈ chunkAux n fuel vals, r.length = n := by
  intro fuel
  induction fuel with
  | zero =>
    intro vals hle hdvd r hr
    simp [chunkAux] at hr
  | succ m ih =>
    intro vals hle hdvd r hr
    cases vals with
    | nil => simp [chunkAux] at hr
    | cons v vs =>
      simp only [List.length_cons] at hle hdvd
      have hlen : n ≤ vs.length + 1 := Nat.le_of_dvd (Nat.succ_pos _) hdvd
      simp only [chunkAux, List.mem_cons] at hr
      rcases hr with hr | hr
      · subst hr
        simp only [List.length_cons, List.length_take]
        omega
      · refine ih (vs.drop (n - 1)) ?_ ?_ r hr
        · simp only [List.length_drop]
          omega
        · have h2 : (vs.drop (n - 1)).length = vs.length + 1 - n := by
            simp only [List.length_drop]; omega
          rw [h2]
          exact Nat.dvd_sub' hdvd (dvd_refl n)

theorem closeLoop_wf {tags : List String} {vals : List Value} {l c : Nat} {lp : Loop}
    (h : closeLoop tags vals l c = .ok lp) : LoopWF lp := by
  unfold closeLoop at h
  split at h
  · simp at h
  · split at h
    · simp at h
    next hemp hmod =>
      injection h with h'
      subst h'
      intro r hr
      have hn : 0 < tags.length := by
        cases tags with
        | nil => simp at hemp
        | cons t ts => simp
      have hdvd : tags.length ∣ vals.length := by
        refine Nat.dvd_of_mod_eq_zero ?_
        simpa using hmod
      exact chunkAux_wf tags.length hn vals.length vals le_rfl hdvd r hr


theorem addItem_skel (st : PState) (tag : String) (v : Value) :
    SameSkeleton st (addItem st tag v) := by
  rcases st with ⟨bs, cur, fr, mode⟩
  cases fr <;> cases cur <;> simp [addItem, SameSkeleton]

theorem addLoop_skel (st : PState) (lp : Loop) :
    SameSkeleton st (addLoop st lp) := by
  rcases st with ⟨bs, cur, fr, mode⟩
  cases fr <;> cases cur <;> simp [addLoop, SameSkeleton]

theorem flushMode_skel {st st' : PState} (h : flushMode st = .ok st') :
    SameSkeleton st st' := by
  unfold flushMode at h
  split at h
  · injection h with h'
    subst h'
    exact ⟨rfl, rfl⟩
  · simp at h
  · split at h
    · simp at h
    · injection h with h'
      subst h'
      exact (addLoop_skel st _)
  · split at h
    · simp at h
    · injection h with h'
      subst h'
      exact (addLoop_skel st _)

theorem valueStep_skel {st : PState} {v : Value} {l c : Nat} {st' : PState}
    (h : valueStep st v l c = .ok st') : SameSkeleton st st' := by
  unfold valueStep at h
  split at h
  · simp at h
  · injection h with h'
    subst h'
    exact (addItem_skel st _ _)
  · split at h
    · simp at h
    · injection h with h'
      subst h'
      exact ⟨rfl, rfl⟩
  · injection h with h'
    subst h'
    exact ⟨rfl, rfl⟩

theorem closeFrame_skel {st : PState} {l c : Nat} {st' : PState}
    (h : closeFrame st l c = .ok st') : SameSkeleton st st' := by
  unfold closeFrame at h
  split at h
  · simp at h
  next f hf =>
    split at h
    next b hc =>
      injection h with h'
      subst h'
      exact ⟨rfl, by simp [hc]⟩
    next hc =>
      injection h with h'
      subst h'
      exact ⟨rfl, rfl⟩


theorem any_name_false {bs : List Block} {name : String}
    (h : bs.any (fun b => ciEq b.name name) = false) :
    ∀ b' ∈ bs, ciEq b'.name name = false := by
  intro b' hb'
  have := List.any_eq_false.mp h b' hb'
  simpa using this

theorem openBlock_cases {st : PState} {name : String} {l c : Nat} {st' : PState}
    (h : openBlock st name l c = .ok st') :
    ∃ st1, flushMode st = .ok st1 ∧
      st'.cur = some ⟨name, [], [], []⟩ ∧
      st'.frame = none ∧
      (∀ b' ∈ st'.blocks, ciEq b'.name name = false) ∧
      ((st1.cur = none ∧ st'.blocks = st1.blocks) ∨
       (∃ b, st1.cur = some b ∧
         ((st1.frame = none ∧ st'.blocks = st1.blocks ++ [b]) ∨
          (∃ f, st1.frame = some f ∧
            st'.blocks = st1.blocks ++ [{ b with frames := b.frames ++ [f] }])))) := by
  unfold openBlock at h
  split at h
  · simp at h
  next st1 hf =>
    refine ⟨st1, hf, ?_⟩
    rcases hfr : st1.frame with _ | f <;> rcases hcur : st1.cur with _ | b <;>
        simp only [hfr, hcur, closeCur] at h
    · -- frame none, cur none
      split at h
      · simp at h
      · split at h
        · simp at h
        next hany =>
          injection h with h'
          subst h'
          refine ⟨rfl, rfl, ?_, .inl ⟨rfl, rfl⟩⟩
          exact any_name_false (by simpa using hany)
    · -- frame none, cur some b
      split at h
      · simp at h
      · split at h
        · simp at h
        next hany =>
          injection h with h'
          subst h'
          refine ⟨rfl, rfl, ?_, .inr ⟨b, rfl, .inl ⟨rfl, rfl⟩⟩⟩
          exact any_name_false (by simpa using hany)
    · -- frame some f, cur none
      split at h
      · simp at h
      · split at h
        · simp at h
        next hany =>
          injection h with h'
          subst h'
          refine ⟨rfl, rfl, ?_, .inl ⟨rfl, rfl⟩⟩
          exact any_name_false (by simpa using hany)
    · -- frame some f, cur some b
      split at h
      · simp at h
      · split at h
        · simp at h
        next hany =>
          injection h with h'
          subst h'
          refine ⟨rfl, rfl, ?_, .inr ⟨b, rfl, .inr ⟨f, rfl, rfl⟩⟩⟩
          exact any_name_false (by simpa using hany)


theorem addItem_wf {st : PState} (h : StateWF st) (tag : String) (v : Value) :
    StateWF (addItem st tag v) := by
  obtain ⟨h1, h2, h3⟩ := h
  rcases st with ⟨bs, cur, fr, mode⟩
  cases fr with
  | some f =>
    refine ⟨h1, h2, ?_⟩
    intro f' hf'
    simp only [addItem] at hf'
    injection hf' with hf'
    subst hf'
    intro lp hlp
    exact h3 f rfl lp (by simpa using hlp)
  | none =>
    cases cur with
    | some b =>
      refine ⟨h1, ?_, h3⟩
      intro b' hb'
      simp only [addItem] at hb'
      injection hb' with hb'
      subst hb'
      exact h2 b rfl
    | none => exact ⟨h1, h2, h3⟩

theorem addLoop_wf {st : PState} (h : StateWF st) {lp : Loop} (hlp : LoopWF lp) :
    StateWF (addLoop st lp) := by
  obtain ⟨h1, h2, h3⟩ := h
  rcases st with ⟨bs, cur, fr, mode⟩
  cases fr with
  | some f =>
    refine ⟨h1, h2, ?_⟩
    intro f' hf'
    simp only [addLoop] at hf'
    injection hf' with hf'
    subst hf'
    intro lp' hlp'
    simp only [List.mem_append, List.mem_singleton] at hlp'
    rcases hlp' with hlp' | hlp'
    · exact h3 f rfl lp' (by simpa using hlp')
    · subst hlp'; exact hlp
  | none =>
    cases cur with
    | some b =>
      refine ⟨h1, ?_, h3⟩
      intro b' hb'
      simp only [addLoop] at hb'
      injection hb' with hb'
      subst hb'
      obtain ⟨hbl, hbf⟩ := h2 b rfl
      refine ⟨?_, hbf⟩
      intro lp' hlp'
      simp only [List.mem_append, List.mem_singleton] at hlp'
      rcases hlp' with hlp' | hlp'
      · exact hbl lp' hlp'
      · subst hlp'; exact hlp
    | none => exact ⟨h1, h2, h3⟩

theorem flushMode_wf {st st' : PState} (hwf : StateWF st)
    (h : flushMode st = .ok st') : StateWF st' := by
  unfold flushMode at h
  split at h
  · injection h with h'; subst h'; exact hwf
  · simp at h
  · split at h
    · simp at h
    next lp hcl =>
      injection h with h'
      subst h'
      exact addLoop_wf hwf (closeLoop_wf hcl)
  · split at h
    · simp at h
    next lp hcl =>
      injection h with h'
      subst h'
      exact addLoop_wf hwf (closeLoop_wf hcl)

theorem valueStep_wf {st : PState} {v : Value} {l c : Nat} {st' : PState}
    (hwf : StateWF st) (h : valueStep st v l c = .ok st') : StateWF st' := by
  unfold valueStep at h
  split at h
  · simp at h
  · injection h with h'
    subst h'
    exact addItem_wf hwf _ _
  · split at h
    · simp at h
    · injection h with h'
      subst h'
      exact hwf
  · injection h with h'
    subst h'
    exact hwf

theorem closeFrame_wf {st : PState} {l c : Nat} {st' : PState}
    (hwf : StateWF st) (h : closeFrame st l c = .ok st') : StateWF st' := by
  obtain ⟨h1, h2, h3⟩ := hwf
  unfold closeFrame at h
  split at h
  · simp at h
  next f hf =>
    split at h
    next b hc =>
      injection h with h'
      subst h'
      refine ⟨h1, ?_, by simp⟩
      intro b' hb'
      simp only at hb'
      injection hb' with hb'
      subst hb'
      obtain ⟨hbl, hbf⟩ := h2 b hc
      refine ⟨hbl, ?_⟩
      intro f' hf'
      simp only [List.mem_append, List.mem_singleton] at hf'
      rcases hf' with hf' | hf'
      · exact hbf f' hf'
      · rw [hf']; exact h3 f hf
    next hc =>
      injection h with h'
      subst h'
      exact ⟨h1, h2, by simp⟩


theorem openBlock_wf {st : PState} {name : String} {l c : Nat} {st' : PState}
    (hwf : StateWF st) (h : openBlock st name l c = .ok st') : StateWF st' := by
  obtain ⟨st1, hf, hcur', hfr', hany, hb⟩ := openBlock_cases h
  obtain ⟨h1, h2, h3⟩ := flushMode_wf hwf hf
  refine ⟨?_, ?_, ?_⟩
  · intro b hbmem
    rcases hb with ⟨hc, hbs⟩ | ⟨b0, hc, ⟨hfr0, hbs⟩ | ⟨f0, hfr0, hbs⟩⟩
    · rw [hbs] at hbmem
      exact h1 b hbmem
    · rw [hbs] at hbmem
      simp only [List.mem_append, List.mem_singleton] at hbmem
      rcases hbmem with hm | hm
      · exact h1 b hm
      · rw [hm]; exact h2 b0 hc
    · rw [hbs] at hbmem
      simp only [List.mem_append, List.mem_singleton] at hbmem
      rcases hbmem with hm | hm
      · exact h1 b hm
      · rw [hm]
        obtain ⟨hbl, hbf⟩ := h2 b0 hc
        refine ⟨hbl, ?_⟩
        intro f' hf'
        simp only [List.mem_append, List.mem_singleton] at hf'
        rcases hf' with hf' | hf'
        · exact hbf f' hf'
        · rw [hf']; exact h3 f0 hfr0
  · intro b hbc
    rw [hcur'] at hbc
    injection hbc with hbc
    rw [← hbc]
    exact ⟨by simp, by simp⟩
  · intro f hfc
    rw [hfr'] at hfc
    simp at hfc

theorem step_wf {st : PState} {t : Tok} {st' : PState}
    (hwf : StateWF st) (h : step st t = .ok st') : StateWF st' := by
  cases t with
  | kwData name l c => exact openBlock_wf hwf h
  | kwStop l c => simp [step] at h
  | kwGlobal l c => simp [step] at h
  | kwLoop l c =>
    simp only [step] at h
    split at h
    · simp at h
    next st1 hf =>
      split at h
      · simp at h
      · injection h with h'
        subst h'
        obtain ⟨h1, h2, h3⟩ := flushMode_wf hwf hf
        exact ⟨h1, h2, h3⟩
  | kwSave name l c =>
    simp only [step] at h
    split at h
    · -- closer branch
      split at h
      · simp at h
      next st1 hf =>
        exact closeFrame_wf (flushMode_wf hwf hf) h
    · -- opener branch
      split at h
      · simp at h
      next st1 hf =>
        split at h
        · simp at h
        · split at h
          · simp at h
          · injection h with h'
            subst h'
            obtain ⟨h1, h2, h3⟩ := flushMode_wf hwf hf
            refine ⟨h1, h2, ?_⟩
            intro f hfc
            simp only at hfc
            injection hfc with hfc
            rw [← hfc]
            intro lp hlp
            simp at hlp
  | bare s l c =>
    simp only [step] at h
    split at h
    · -- tag
      split at h
      · split at h
        · simp at h
        · injection h with h'
          subst h'
          exact hwf
      · simp at h
      · injection h with h'
        subst h'
        exact hwf
      next tags vals l0 c0 hm =>
        split at h
        · simp at h
        next lp hcl =>
          injection h with h'
          subst h'
          exact addLoop_wf hwf (closeLoop_wf hcl)
    · exact valueStep_wf hwf h
  | quoted lit l c =>
    simp only [step] at h
    exact valueStep_wf hwf h
  | multiline content l c =>
    simp only [step] at h
    exact valueStep_wf hwf h

theorem runSteps_wf : ∀ (ts : List Tok) (st st' : PState),
    StateWF st → runSteps st ts = .ok st' → StateWF st' := by
  intro ts
  induction ts with
  | nil =>
    intro st st' hwf h
    injection h with h'
    subst h'
    exact hwf
  | cons t ts ih =>
    intro st st' hwf h
    unfold runSteps at h
    split at h
    · simp at h
    next st1 hstep =>
      exact ih st1 st' (step_wf hwf hstep) h


theorem skel_trans {s1 s2 s3 : PState}
    (h12 : SameSkeleton s1 s2) (h23 : SameSkeleton s2 s3) : SameSkeleton s1 s3 :=
  ⟨h23.1.trans h12.1, h23.2.trans h12.2⟩

theorem step_skel {st : PState} {t : Tok} {st' : PState}
    (h : step st t = .ok st')
    (hnd : ∀ name l c, t ≠ .kwData name l c) : SameSkeleton st st' := by
  cases t with
  | kwData name l c => exact absurd rfl (hnd name l c)
  | kwStop l c => simp [step] at h
  | kwGlobal l c => simp [step] at h
  | kwLoop l c =>
    simp only [step] at h
    split at h
    · simp at h
    next st1 hf =>
      split at h
      · simp at h
      · injection h with h'
        subst h'
        exact skel_trans (flushMode_skel hf) ⟨rfl, rfl⟩
  | kwSave name l c =>
    simp only [step] at h
    split at h
    · split at h
      · simp at h
      next st1 hf =>
        exact skel_trans (flushMode_skel hf) (closeFrame_skel h)
    · split at h
      · simp at h
      next st1 hf =>
        split at h
        · simp at h
        · split at h
          · simp at h
          · injection h with h'
            subst h'
            exact skel_trans (flushMode_skel hf) ⟨rfl, rfl⟩
  | bare s l c =>
    simp only [step] at h
    split at h
    · split at h
      · split at h
        · simp at h
        · injection h with h'
          subst h'
          exact ⟨rfl, rfl⟩
      · simp at h
      · injection h with h'
        subst h'
        exact ⟨rfl, rfl⟩
      next tags vals l0 c0 hm =>
        split at h
        · simp at h
        next lp hcl =>
          injection h with h'
          subst h'
          exact skel_trans (addLoop_skel st lp) ⟨rfl, rfl⟩
    · exact valueStep_skel h
  | quoted lit l c =>
    simp only [step] at h
    exact valueStep_skel h
  | multiline content l c =>
    simp only [step] at h
    exact valueStep_skel h

theorem names_of_skel {st st' : PState} (hsk : SameSkeleton st st')
    (h : NamesOK st) : NamesOK st' := by
  obtain ⟨hb, hc⟩ := hsk
  obtain ⟨h1, h2⟩ := h
  refine ⟨by rw [hb]; exact h1, ?_⟩
  intro b hcur b' hb'
  rw [hb] at hb'
  have hmapeq : st.cur.map Block.name = some b.name := by
    rw [← hc, hcur]
    rfl
  rcases hmap : st.cur with _ | b0
  · rw [hmap] at hmapeq
    simp at hmapeq
  · rw [hmap] at hmapeq
    simp only [Option.map_some'] at hmapeq
    injection hmapeq with hname
    have h4 := h2 b0 hmap b' hb'
    unfold nameKey at h4 ⊢
    rw [← hname]
    exact h4


theorem ciEq_false_neq {a b : String} (h : ciEq a b = false) :
    a.data.map lowerChar ≠ b.data.map lowerChar := by
  intro heq
  unfold ciEq at h
  rw [heq] at h
  simp at h

theorem openBlock_names {st : PState} {name : String} {l c : Nat} {st' : PState}
    (hn : NamesOK st) (h : openBlock st name l c = .ok st') : NamesOK st' := by
  obtain ⟨st1, hf, hcur', hfr', hany, hb⟩ := openBlock_cases h
  obtain ⟨h1, h2⟩ := names_of_skel (flushMode_skel hf) hn
  constructor
  · rcases hb with ⟨hc, hbs⟩ | ⟨b0, hc, ⟨hfr0, hbs⟩ | ⟨f0, hfr0, hbs⟩⟩
    · rw [hbs]; exact h1
    · rw [hbs, List.map_append]
      refine List.Nodup.append h1 (by simp) ?_
      intro x hx hy
      simp only [List.map_cons, List.map_nil, List.mem_singleton] at hy
      simp only [List.mem_map] at hx
      obtain ⟨b', hb', hkey⟩ := hx
      exact absurd (hkey.trans hy) (h2 b0 hc b' hb')
    · rw [hbs, List.map_append]
      refine List.Nodup.append h1 (by simp) ?_
      intro x hx hy
      simp only [List.map_cons, List.map_nil, List.mem_singleton] at hy
      simp only [List.mem_map] at hx
      obtain ⟨b', hb', hkey⟩ := hx
      have hkb : nameKey { b0 with frames := b0.frames ++ [f0] } = nameKey b0 := rfl
      rw [hkb] at hy
      exact absurd (hkey.trans hy) (h2 b0 hc b' hb')
  · intro b hcurb b' hb'
    rw [hcur'] at hcurb
    injection hcurb with hcurb
    rw [← hcurb]
    have hfalse := hany b' hb'
    unfold nameKey
    exact ciEq_false_neq hfalse

theorem step_names {st : PState} {t : Tok} {st' : PState}
    (hn : NamesOK st) (h : step st t = .ok st') : NamesOK st' := by
  cases t with
  | kwData name l c => exact openBlock_names hn h
  | kwStop l c => simp [step] at h
  | kwGlobal l c => simp [step] at h
  | kwLoop l c => exact names_of_skel (step_skel h (by intro n a b hne; cases hne)) hn
  | kwSave name l c => exact names_of_skel (step_skel h (by intro n a b hne; cases hne)) hn
  | bare s l c => exact names_of_skel (step_skel h (by intro n a b hne; cases hne)) hn
  | quoted lit l c => exact names_of_skel (step_skel h (by intro n a b hne; cases hne)) hn
  | multiline content l c => exact names_of_skel (step_skel h (by intro n a b hne; cases hne)) hn

theorem runSteps_names : ∀ (ts : List Tok) (st st' : PState),
    NamesOK st → runSteps st ts = .ok st' → NamesOK st' := by
  intro ts
  induction ts with
  | nil =>
    intro st st' hn h
    injection h with h'
    subst h'
    exact hn
  | cons t ts ih =>
    intro st st' hn h
    unfold runSteps at h
    split at h
    · simp at h
    next st1 hstep =>
      exact ih st1 st' (step_names hn hstep) h

theorem step_appendsBlocks {st : PState} {t : Tok} {st' : PState}
    (h : step st t = .ok st') : st.blocks <+: st'.blocks := by
  cases t with
  | kwData name l c =>
    obtain ⟨st1, hf, hcur', hfr', hany, hb⟩ := openBlock_cases h
    have hbeq : st1.blocks = st.blocks := (flushMode_skel hf).1
    rcases hb with ⟨hc, hbs⟩ | ⟨b0, hc, ⟨hfr0, hbs⟩ | ⟨f0, hfr0, hbs⟩⟩
    · rw [hbs, hbeq]
    · rw [hbs, hbeq]
      exact List.prefix_append _ _
    · rw [hbs, hbeq]
      exact List.prefix_append _ _
  | kwStop l c => simp [step] at h
  | kwGlobal l c => simp [step] at h
  | kwLoop l c =>
    have := (step_skel h (by intro n a b hne; cases hne)).1
    rw [this]
  | kwSave name l c =>
    have := (step_skel h (by intro n a b hne; cases hne)).1
    rw [this]
  | bare s l c =>
    have := (step_skel h (by intro n a b hne; cases hne)).1
    rw [this]
  | quoted lit l c =>
    have := (step_skel h (by intro n a b hne; cases hne)).1
    rw [this]
  | multiline content l c =>
    have := (step_skel h (by intro n a b hne; cases hne)).1
    rw [this]

theorem runSteps_appendsBlocks : ∀ (ts : List Tok) (st st' : PState),
    runSteps st ts = .ok st' → st.blocks <+: st'.blocks := by
  intro ts
  induction ts with
  | nil =>
    intro st st' h
    injection h with h'
    subst h'
    exact List.prefix_refl _
  | cons t ts ih =>
    intro st st' h
    unfold runSteps at h
    split at h
    · simp at h
    next st1 hstep =>
      exact (step_appendsBlocks hstep).trans (ih st1 st' h)


theorem closeCur_blocks (st : PState) :
    (closeCur st).blocks = st.blocks ++ st.cur.toList := by
  unfold closeCur
  rcases hc : st.cur with _ | b <;> simp [hc]

theorem parse_ok_cases {text : String} {d : Document} (h : parse text = .ok d) :
    ∃ toks, tokenize (text.data.length + 1) text.data 1 1 [] = .ok toks ∧
      build toks = .ok d := by
  unfold parse at h
  split at h
  · simp at h
  next toks htok => exact ⟨toks, htok, h⟩

theorem build_ok_cases {toks : List Tok} {d : Document} (h : build toks = .ok d) :
    ∃ st, runSteps initState toks = .ok st ∧ finalize st = .ok d := by
  unfold build at h
  split at h
  · simp at h
  next st hrun => exact ⟨st, hrun, h⟩

theorem finalize_cases {st : PState} {d : Document} (h : finalize st = .ok d) :
    ∃ st1, flushMode st = .ok st1 ∧ st1.frame = none ∧
      d.blocks = st1.blocks ++ st1.cur.toList := by
  unfold finalize at h
  split at h
  · simp at h
  next st1 hf =>
    split at h
    · simp at h
    next hfr =>
      injection h with h'
      rw [← h']
      refine ⟨st1, hf, ?_, closeCur_blocks st1⟩
      simpa using hfr

theorem initState_wf : StateWF initState := by
  refine ⟨?_, ?_, ?_⟩ <;> intro x hx <;> simp [initState] at hx

theorem initState_names : NamesOK initState := by
  refine ⟨?_, ?_⟩
  · simp [initState]
  · intro b hb
    simp [initState] at hb

theorem parse_wf {text : String} {d : Document} (h : parse text = .ok d) :
    ∀ b ∈ d.blocks, BlockWF b := by
  obtain ⟨toks, htok, hbuild⟩ := parse_ok_cases h
  obtain ⟨st, hrun, hfin⟩ := build_ok_cases hbuild
  obtain ⟨st1, hflush, hfr, hblocks⟩ := finalize_cases hfin
  obtain ⟨h1, h2, h3⟩ := flushMode_wf (runSteps_wf toks initState st initState_wf hrun) hflush
  intro b hb
  rw [hblocks] at hb
  simp only [List.mem_append] at hb
  rcases hb with hb | hb
  · exact h1 b hb
  · rcases hc : st1.cur with _ | b0
    · rw [hc] at hb; simp at hb
    · rw [hc] at hb
      simp only [Option.toList_some, List.mem_singleton] at hb
      rw [hb]
      exact h2 b0 hc

theorem parse_names {text : String} {d : Document} (h : parse text = .ok d) :
    (d.blocks.map nameKey).Nodup := by
  obtain ⟨toks, htok, hbuild⟩ := parse_ok_cases h
  obtain ⟨st, hrun, hfin⟩ := build_ok_cases hbuild
  obtain ⟨st1, hflush, hfr, hblocks⟩ := finalize_cases hfin
  obtain ⟨h1, h2⟩ :=
    names_of_skel (flushMode_skel hflush)
      (runSteps_names toks initState st initState_names hrun)
  rw [hblocks, List.map_append]
  rcases hc : st1.cur with _ | b0
  · simpa using h1
  · refine List.Nodup.append h1 (by simp) ?_
    intro x hx hy
    simp only [Option.toList_some, List.map_cons, List.map_nil,
      List.mem_singleton] at hy
    simp only [List.mem_map] at hx
    obtain ⟨b', hb', hkey⟩ := hx
    exact absurd (hkey.trans hy) (h2 b0 hc b' hb')

theorem ciEq_self (a : String) : ciEq a a = true := by
  simp [ciEq]

theorem find_block_unique :
    ∀ (bs : List Block), (bs.map nameKey).Nodup →
      ∀ (i : Nat) (b : Block), bs.get? i = some b →
        bs.find? (fun b' => ciEq b'.name b.name) = some b := by
  intro bs
  induction bs with
  | nil => intro _ i b hget; simp at hget
  | cons hd tl ih =>
    intro hnd i b hget
    simp only [List.map_cons, List.nodup_cons] at hnd
    obtain ⟨hni, hndtl⟩ := hnd
    cases i with
    | zero =>
      simp only [List.get?] at hget
      injection hget with hget
      subst hget
      exact List.find?_cons_of_pos _ (ciEq_self hd.name)
    | succ i =>
      simp only [List.get?] at hget
      have hmem : b ∈ tl := List.get?_mem hget
      have hne : nameKey hd ≠ nameKey b := by
        intro heq
        exact hni (heq ▸ List.mem_map_of_mem nameKey hmem)
      have hfalse : ciEq hd.name b.name = false := by
        unfold ciEq
        unfold nameKey at hne
        exact beq_eq_false_iff_ne.mpr hne
      rw [List.find?_cons_of_neg _ (by simp [hfalse])]
      exact ih hndtl i b hget


theorem toOption_ok {r : Except PErr Document} {d : Document}
    (h : r.toOption = some d) : r = .ok d := by
  cases r with
  | error e => simp [Except.toOption] at h
  | ok d' =>
    simp [Except.toOption] at h
    rw [h]

theorem zip_lookup_get :
    ∀ (tags : List String) (row : List Value), tags.Nodup →
      ∀ (j : Nat) (t : String) (v : Value),
        tags.get? j = some t → row.get? j = some v →
        (tags.zip row).lookup t = some v := by
  intro tags
  induction tags with
  | nil => intro row _ j t v hget _; simp at hget
  | cons t0 ts ih =>
    intro row hnd j t v hget hrv
    cases row with
    | nil => simp at hrv
    | cons v0 vs =>
      simp only [List.nodup_cons] at hnd
      obtain ⟨hni, hndts⟩ := hnd
      cases j with
      | zero =>
        simp only [List.get?] at hget hrv
        injection hget with hget
        injection hrv with hrv
        subst hget
        subst hrv
        simp [List.lookup]
      | succ j =>
        simp only [List.get?] at hget hrv
        have htmem : t ∈ ts := List.get?_mem hget
        have hne : (t == t0) = false :=
          beq_eq_false_iff_ne.mpr (fun h => hni (h ▸ htmem))
        simp only [List.zip_cons_cons, List.lookup, hne]
        exact ih vs hndts j t v hget hrv

/-- C2: for every Document returned by a successful parse, every Loop in it
(directly in a block or inside a save frame) has every row's value count
equal to the loop header's tag count; whenever the builder closes a loop
whose value count is not a multiple of the header length, it fails with a
StructuralError; and the concrete mismatched input
`data_x loop_ _a _b 1 2 3` fails with exactly that StructuralError. -/
theorem claim_C2_loop_row_invariant :
    (∀ (text : String) (d : Document), (parse text).toOption = some d →
        ∀ b ∈ d.blocks,
          (∀ lp ∈ b.loops, ∀ r ∈ lp.rows, r.length = lp.tags.length) ∧
          (∀ f ∈ b.frames, ∀ lp ∈ f.loops, ∀ r ∈ lp.rows,
            r.length = lp.tags.length)) ∧
    (∀ (tags : List String) (vals : List Value) (l c : Nat),
        vals.length % tags.length ≠ 0 →
        (errOf (closeLoop tags vals l c)).map PErr.kind = some .structural) ∧
    errOf (parse "data_x\nloop_\n_a\n_b\n1 2 3\n") =
      some ⟨.structural, 2, 1, "loop row/column mismatch"⟩ := by
  refine ⟨?_, ?_, by decide⟩
  · intro text d hp b hb
    exact parse_wf (toOption_ok hp) b hb
  · intro tags vals l c hmod
    unfold closeLoop
    split
    · rfl
    · rw [if_pos (by simpa using hmod)]
      rfl

/-- Witness for C2: closing a 2-tag loop on 3 values fails structurally. -/
theorem claim_C2_witness :
    (errOf (closeLoop ["_a", "_b"]
        [.numeric 1 none, .numeric 2 none, .numeric 3 none] 2 1)).map PErr.kind =
      some .structural :=
  claim_C2_loop_row_invariant.2.1 ["_a", "_b"]
    [.numeric 1 none, .numeric 2 none, .numeric 3 none] 2 1 (by decide)

/-- C7: iteration order is source-appearance order: the builder only ever
appends to the finished-blocks list (its blocks are a prefix of every later
state's blocks), the example document's blocks, item tags, loop tags, loop
rows, save frames and frame item tags all come out in their source order,
and parsing is deterministic, so re-iterating yields the same order. -/
theorem claim_C7_source_order :
    (∀ (ts : List Tok) (st st' : PState),
        runSteps st ts = .ok st' → st.blocks <+: st'.blocks) ∧
    sampleDoc.blockNames = ["example"] ∧
    sampleBlock.itemKeys =
      ["_cell_length_a", "_cell_length_b", "_cell_length_c", "_cell_angle_alpha",
       "_cell_angle_beta", "_cell_angle_gamma", "_author_name", "_title"] ∧
    sampleLoop.tags =
      ["_atom_site_label", "_atom_site_type_symbol", "_atom_site_fract_x",
       "_atom_site_fract_y", "_atom_site_fract_z"] ∧
    sampleLoop.rows.map (fun r => r.get? 0) =
      [some (.text "C1"), some (.text "N1"), some (.text "O1")] ∧
    sampleBlock.frames.map SaveFrame.name = ["frame1"] ∧
    sampleFrame.itemKeys = ["_frame_item1", "_frame_item2"] ∧
    (∀ text : String, parse text = parse text) :=
  ⟨runSteps_appendsBlocks, by decide, by decide, by decide, by decide, by decide,
   by decide, fun _ => rfl⟩

/-- Witness for C7: one `data_x` step extends the empty block list. -/
theorem claim_C7_witness :
    initState.blocks <+:
      (⟨[], some ⟨"x", [], [], []⟩, none, .normal⟩ : PState).blocks :=
  claim_C7_source_order.1 [.kwData "x" 1 1] initState
    ⟨[], some ⟨"x", [], [], []⟩, none, .normal⟩ (by rfl)

/-- C9: by-name and by-index Block access agree: in every successfully
parsed Document, looking up the block at position `i` again by its own name
returns that same block (block names are case-insensitively unique after a
successful parse, so the case-insensitive name lookup cannot hit another
block first). -/
theorem claim_C9_name_index_agreement :
    ∀ (text : String) (d : Document) (i : Nat) (b : Block),
      (parse text).toOption = some d → d.getBlockIdx i = some b →
      d.getBlock b.name = some b := by
  intro text d i b hp hi
  exact find_block_unique d.blocks (parse_names (toOption_ok hp)) i b hi

set_option maxRecDepth 10000 in
/-- Witness for C9 on the example document: block 0 is found by its own
name `example`. -/
theorem claim_C9_witness :
    sampleDoc.getBlock sampleBlock.name = some sampleBlock :=
  claim_C9_name_index_agreement sampleText sampleDoc 0 sampleBlock
    (by decide) (by decide)

/-- C10: the mapping view and the ordered view of a loop row agree: for an
in-range row index, `get_row_dict` returns exactly the header tags zipped
with that row, its keys are exactly the tags (when the row has header
length, which C2 guarantees for parsed loops), and looking any tag up in
the mapping returns the value at that tag's header position in the row
(header tags are distinct, per spec section 3). -/
theorem claim_C10_row_dict_agreement :
    ∀ (lp : Loop) (i : Nat) (row : List Value),
      lp.getRow i = some row → lp.tags.Nodup →
      lp.getRowDict i = some (lp.tags.zip row) ∧
      (row.length = lp.tags.length → (lp.tags.zip row).map Prod.fst = lp.tags) ∧
      (∀ (j : Nat) (t : String) (v : Value),
        lp.tags.get? j = some t → row.get? j = some v →
        (lp.tags.zip row).lookup t = some v) := by
  intro lp i row hrow hnd
  refine ⟨?_, ?_, ?_⟩
  · unfold Loop.getRowDict
    unfold Loop.getRow at hrow
    rw [hrow]
    rfl
  · intro hlen
    exact List.map_fst_zip _ _ (le_of_eq hlen.symm)
  · intro j t v h1 h2
    exact zip_lookup_get lp.tags row hnd j t v h1 h2

/-- Witness for C10 on the example loop: row 0 as a mapping is the tag
list zipped with the row values. -/
theorem claim_C10_witness :
    sampleLoop.getRowDict 0 = some (sampleLoop.tags.zip
      [.text "C1", .text "C", .numeric (mkRat 1234 10000) none,
       .numeric (mkRat 5678 10000) none, .numeric (mkRat 9012 10000) none]) :=
  (claim_C10_row_dict_agreement sampleLoop 0
    [.text "C1", .text "C", .numeric (mkRat 1234 10000) none,
     .numeric (mkRat 5678 10000) none, .numeric (mkRat 9012 10000) none]
    (by decide) (by decide)).1
end Cif
